import Mathlib

/-
Verification of the note-aggregation, model-selection and resource-logging
scripts of this repository, as a shallow embedding in Lean 4.

* `mergeAux` / `mergeNotes` embed the short-note merge loop of
  `src/process_noteevents_text.py` (step 4, "Postprocess").
* `tsLeB` / `rowLeB` / `sortRows` / `admissionRows` embed the sort-and-group
  steps of the same script (step 3, sorting by SUBJECT_ID, HADM_ID, CHARTTIME
  with unparseable timestamps coerced to a missing sentinel that sorts last).
* `logOnce` / `logAll` embed the append-only CSV write of
  `src/resource_logger.py` (header written only when the file does not exist).
* `sortByName`, `avg_macro_f1`, `idxmax`, `bestFile`, `findIterTag`,
  `copyActions`, `modelCard` and `runPipeline` embed
  `src-binary-classification-on-synthea/best_stacking_meta_learner_across_iterations.py`;
  file systems are modelled as lists of file names, fold-score CSVs as records
  carrying their Macro-F1 column (as rationals), and the script's effects as
  the list of (source, destination) copies plus the list of written report
  strings, with the two fatal errors modelled by `Except.error`.
-/

/-! ### Note aggregator: the merge step of `process_noteevents_text.py` -/

/-- Whitespace test used by the model of Python's `str.strip()`. -/
def isWS (c : Char) : Bool := c.isWhitespace

/-- Model of Python `str.strip()` on character lists: remove the maximal
whitespace prefix and the maximal whitespace suffix. -/
def stripChars (l : List Char) : List Char :=
  ((l.dropWhile isWS).reverse.dropWhile isWS).reverse

/-- Model of Python `str.strip()` on strings (`buffer.strip()` in the source). -/
def pyStrip (s : String) : String := String.mk (stripChars s.data)

/-- `min_note_len = 40` from the source. -/
def min_note_len : Nat := 40

/-- The merge loop of step 4 of `process_noteevents_text.py`:

    combined, buffer = [], ""
    for note in note_list:
        if len(note) < min_note_len:
            buffer += " " + note
        else:
            if buffer:
                combined.append(buffer.strip())
                buffer = ""
            combined.append(note)
    if buffer:
        combined.append(buffer.strip())

`mergeAux minLen buffer note_list` is the `combined` list produced by running
the loop body over `note_list` starting from the given `buffer` (the final
two lines flush a leftover non-empty buffer). -/
def mergeAux (minLen : Nat) (buffer : String) : List String → List String
  | [] => if buffer = "" then [] else [pyStrip buffer]
  | note :: rest =>
    if note.length < minLen then
      mergeAux minLen (buffer ++ " " ++ note) rest
    else if buffer = "" then
      note :: mergeAux minLen "" rest
    else
      pyStrip buffer :: note :: mergeAux minLen "" rest

/-- The whole merge step for one admission's `note_list`. -/
def mergeNotes (minLen : Nat) (note_list : List String) : List String :=
  mergeAux minLen "" note_list

/-- The buffer built by successively executing `buffer += " " + note` over a
run of notes, starting from the empty buffer. -/
def bufferOf (run : List String) : String :=
  run.foldl (fun b n => b ++ " " ++ n) ""

/-- How one output element of the merge step relates to the block of input
notes it came from: either a single long note kept verbatim, or a non-empty
run of short notes flushed as `buffer.strip()`. -/
inductive BlockOut (minLen : Nat) : List String → String → Prop
  | long (n : String) (h : minLen ≤ n.length) : BlockOut minLen [n] n
  | shortRun (run : List String) (hne : run ≠ [])
      (hshort : ∀ n ∈ run, n.length < minLen) :
      BlockOut minLen run (pyStrip (bufferOf run))

/-- The character stream obtained by concatenating a list of notes. -/
def concatTexts (l : List String) : List Char := (l.map String.data).flatten

/-- The long note of the worked example in the specification. -/
def c1Long : String := "a sufficiently long note text exceeding forty characters"

/-! ### Note aggregator: sorting and grouping (steps 3 and 4) -/

/-- One row of the NOTEEVENTS table after cleaning: SUBJECT_ID, HADM_ID,
CHARTTIME (`none` models a NaT produced by `pd.to_datetime(..., errors="coerce")`)
and TEXT. -/
structure NoteRow where
  subject_id : Nat
  hadm_id : Nat
  charttime : Option Nat
  text : String
deriving DecidableEq, Repr

/-- Timestamp order used by `sort_values`: missing timestamps (NaT) sort last. -/
def tsLeB : Option Nat → Option Nat → Bool
  | some a, some b => decide (a ≤ b)
  | some _, none => true
  | none, some _ => false
  | none, none => true

/-- The lexicographic row order of
`sort_values(by=["SUBJECT_ID", "HADM_ID", "CHARTTIME"])`. -/
def rowLeB (a b : NoteRow) : Bool :=
  decide (a.subject_id < b.subject_id) ||
    (decide (a.subject_id = b.subject_id) &&
      (decide (a.hadm_id < b.hadm_id) ||
        (decide (a.hadm_id = b.hadm_id) && tsLeB a.charttime b.charttime)))

/-- The sorted table produced by `sort_values`. -/
def sortRows (rows : List NoteRow) : List NoteRow :=
  List.insertionSort (fun a b => rowLeB a b = true) rows

/-- The rows contributing to `notes_grouped[s][h]`: iterating the sorted table
and appending each row's TEXT to its subject/admission bucket yields, for one
admission, exactly the sorted rows with that SUBJECT_ID and HADM_ID, in order. -/
def admissionRows (s h : Nat) (rows : List NoteRow) : List NoteRow :=
  (sortRows rows).filter (fun r => decide (r.subject_id = s) && decide (r.hadm_id = h))

/-- The note list accumulated for admission `h` of subject `s`. -/
def notesFor (s h : Nat) (rows : List NoteRow) : List String :=
  (admissionRows s h rows).map NoteRow.text

/-! ### Resource logger: the CSV append of `resource_logger.py` -/

/-- The fixed five-column header row. -/
def header : List String := ["tag", "elapsed_hr", "gpu_hrs", "cpu_pct", "disk_used_gb"]

/-- One data row: the tag followed by the four formatted telemetry fields
(elapsed hours, GPU hours, CPU percent, disk GB). -/
def mkRow (tag : String) (telemetry : List String) : List String := tag :: telemetry

/-- One `ResourceLogger` exit: `none` models an absent log file (in which case
the header is written first), `some rows` an existing one (append only). -/
def logOnce : Option (List (List String)) → String → List String → List (List String)
  | none, tag, telemetry => [header, mkRow tag telemetry]
  | some rows, tag, telemetry => rows ++ [mkRow tag telemetry]

/-- N sequential scoped invocations, threading the log file through. -/
def logAll (file : Option (List (List String))) (entries : List (String × List String)) :
    Option (List (List String)) :=
  entries.foldl (fun f e => some (logOnce f e.1 e.2)) file

/-! ### Best-iteration selector:
`best_stacking_meta_learner_across_iterations.py` -/

/-- One fold-score CSV (`stacker_best_model_folds_*.csv`): its path and its
"Macro-F1" column, modelled as rationals. -/
structure ScoreFile where
  name : String
  macroF1 : List ℚ
deriving DecidableEq, Repr

instance : Inhabited ScoreFile := ⟨⟨"", []⟩⟩

/-- Lexicographic comparison of character lists by code point, the order
Python's `sorted` uses on strings. -/
def charListLe : List Char → List Char → Bool
  | [], _ => true
  | _ :: _, [] => false
  | c :: cs, d :: ds =>
    if c.toNat < d.toNat then true
    else if d.toNat < c.toNat then false
    else charListLe cs ds

/-- Python string comparison `a <= b`. -/
def strLeB (a b : String) : Bool := charListLe a.data b.data

/-- `fold_score_files = sorted(glob.glob(...))`: the glob result in
lexicographically sorted order. -/
def sortByName (files : List ScoreFile) : List ScoreFile :=
  List.insertionSort (fun a b => strLeB a.name b.name = true) files

/-- `avg_f1 = df["Macro-F1"].mean()`: the arithmetic mean of the column. -/
def avg_macro_f1 (f : ScoreFile) : ℚ := f.macroF1.sum / (f.macroF1.length : ℚ)

/-- The maximum of a non-empty list of scores (0 for the empty list). -/
def maxVal : List ℚ → ℚ
  | [] => 0
  | [x] => x
  | x :: y :: xs => max x (maxVal (y :: xs))

/-- `Series.idxmax`: the index of the first occurrence of the maximum. -/
def idxmax : List ℚ → Nat
  | [] => 0
  | [_] => 0
  | x :: y :: xs => if x < maxVal (y :: xs) then idxmax (y :: xs) + 1 else 0

/-- The position of the winning row of `iteration_scores_df`. -/
def bestIndex (files : List ScoreFile) : Nat := idxmax (files.map avg_macro_f1)

/-- `best_file = best_row["file"]`: the file whose mean Macro-F1 wins. -/
def bestFile (files : List ScoreFile) : ScoreFile := files.getD (bestIndex files) default

/-- `re.search(r"(iter[0-9]+)", s)`: scan left to right for the first position
matching `iter` followed by at least one digit; the group is `iter` plus the
maximal digit run (the regex `[0-9]+` is greedy). -/
def findIterTagAux : List Char → Option (List Char)
  | 'i' :: 't' :: 'e' :: 'r' :: c :: rest =>
    if c.isDigit then
      some ('i' :: 't' :: 'e' :: 'r' :: c :: rest.takeWhile Char.isDigit)
    else
      findIterTagAux ('t' :: 'e' :: 'r' :: c :: rest)
  | _ :: rest => findIterTagAux rest
  | [] => none

/-- The extracted iteration tag of a filename, e.g. `some "iter1"`. -/
def findIterTag (s : String) : Option String :=
  (findIterTagAux s.data).map String.mk

/-- The fixed part of the glob pattern `stacker_binary_metrics_<tag>_*.csv`. -/
def metricsPat (tag : String) : List Char :=
  "stacker_binary_metrics_".data ++ tag.data ++ ['_']

/-- Whether a file name matches `stacker_binary_metrics_<tag>_*.csv`, i.e.
equals the pattern prefix, then an arbitrary (possibly empty) middle, then
`.csv`. -/
def matchesMetrics (tag : String) (name : String) : Bool :=
  (metricsPat tag).isPrefixOf name.data && ".csv".data.isSuffixOf name.data &&
    decide ((metricsPat tag).length + 4 ≤ name.data.length)

/-- The metrics copy loop: every matching file is copied to its name with the
tag substring replaced (all occurrences, as `str.replace` does) by the literal
`across_iterations`. Each pair is (source, destination). -/
def copyActions (tag : String) (fs : List String) : List (String × String) :=
  (fs.filter (fun n => matchesMetrics tag n)).map
    (fun f => (f, f.replace tag "across_iterations"))

/-- Whether a string has the shape of an iteration tag `iter[0-9]+`. -/
def isIterTagB (tag : String) : Bool :=
  "iter".data.isPrefixOf tag.data && !(tag.data.drop 4).isEmpty &&
    (tag.data.drop 4).all Char.isDigit

/-- Rendering of the best average score in the model card (the source formats
it with `{:.4f}`; the exact decimal rendering is irrelevant to the claims). -/
def showScore (q : ℚ) : String := toString q

/-- The sequence of strings written to `best-stacker-model-across-iterations.md`,
one element per `f.write` call of step 5. -/
def modelCard (best_iter : String) (best_avg_f1 : ℚ) (metrics_files : List String) :
    List String :=
  ["# Model Card: Best Stacking Meta-Learner Across Iterations\n\n",
   "**Best iteration:** `" ++ best_iter ++ "`\n",
   "**Average Macro-F1:** " ++ showScore best_avg_f1 ++ "\n\n",
   "## Saved Artifacts\n",
   "- `stacker_best_model_across_iterations.txt`\n",
   "- `stacker_best_model_across_iterations.pkl`\n"]
  ++ metrics_files.map (fun f => "- `" ++ f.replace best_iter "across_iterations" ++ "`\n")

/-- The observable effects of one selector run: the copies performed and the
report lines written. -/
structure SelectorOutput where
  copies : List (String × String)
  report : List String
deriving DecidableEq, Repr

/-- The whole script, from the sorted glob of fold-score files to the model
card: raises `FileNotFoundError` when no fold-score files exist, raises
`ValueError` when the winning file name carries no `iter<N>` tag, otherwise
copies the winning iteration's `.txt` and `.pkl` artifacts when they exist
(silently skipping absent ones), copies the matching metrics CSVs under
renamed names, and writes the model card. `fs` is the list of file names
present in the working directory. -/
def runPipeline (files : List ScoreFile) (fs : List String) : Except String SelectorOutput :=
  if (sortByName files).isEmpty then Except.error "No fold-score CSV files found!"
  else
    match findIterTag (bestFile (sortByName files)).name with
    | none => Except.error ("Cannot extract iteration from " ++ (bestFile (sortByName files)).name)
    | some best_iter =>
      let txt_file := "stacker_best_model_" ++ best_iter ++ ".txt"
      let pkl_file := "stacker_best_model_" ++ best_iter ++ ".pkl"
      let txtCopies := if txt_file ∈ fs then
          [(txt_file, "stacker_best_model_across_iterations.txt")] else []
      let pklCopies := if pkl_file ∈ fs then
          [(pkl_file, "stacker_best_model_across_iterations.pkl")] else []
      Except.ok ⟨txtCopies ++ pklCopies ++ copyActions best_iter fs,
        modelCard best_iter (avg_macro_f1 (bestFile (sortByName files)))
          (fs.filter (fun n => matchesMetrics best_iter n))⟩

/-- The copies a run performed (none when it raised). -/
def copiesOf : Except String SelectorOutput → List (String × String)
  | Except.ok o => o.copies
  | Except.error _ => []

/-- The report lines a run wrote (none when it raised). -/
def reportOf : Except String SelectorOutput → List String
  | Except.ok o => o.report
  | Except.error _ => []

/-- Whether a run completed without raising. -/
def pipelineOk : Except String SelectorOutput → Bool
  | Except.ok _ => true
  | Except.error _ => false

/-! ## Theorems -/

/-! ### Merge-step helpers -/

theorem bufferOf_append_single (l : List String) (n : String) :
    bufferOf (l ++ [n]) = bufferOf l ++ " " ++ n := by
  simp [bufferOf, List.foldl_append]

theorem length_le_foldl_buffer (l : List String) (b : String) :
    b.length ≤ (l.foldl (fun b n => b ++ " " ++ n) b).length := by
  induction l generalizing b with
  | nil => simp
  | cons x xs ih =>
    have hsp : (" " : String).length = 1 := rfl
    simp only [List.foldl_cons]
    calc b.length ≤ (b ++ " " ++ x).length := by
          simp [String.length_append, hsp]
          omega
    _ ≤ _ := ih _

theorem bufferOf_ne_empty (pre : List String) (h : pre ≠ []) : bufferOf pre ≠ "" := by
  intro hcon
  cases pre with
  | nil => exact h rfl
  | cons x xs =>
    have h1 : ("" ++ " " ++ x).length ≤ (bufferOf (x :: xs)).length := by
      simpa [bufferOf, List.foldl_cons] using length_le_foldl_buffer xs ("" ++ " " ++ x)
    rw [hcon] at h1
    have hsp : (" " : String).length = 1 := rfl
    have hnil : ("" : String).length = 0 := rfl
    simp [String.length_append, hsp, hnil] at h1

theorem mergeAux_blocks (minLen : Nat) :
    ∀ (rest pre : List String), (∀ n ∈ pre, n.length < minLen) →
    ∃ blocks : List (List String),
      blocks.flatten = pre ++ rest ∧
      List.Forall₂ (BlockOut minLen) blocks (mergeAux minLen (bufferOf pre) rest)
  | [], pre, hpre => by
    by_cases hp : pre = []
    · subst hp
      exact ⟨[], by simp, by simp [mergeAux, bufferOf, List.Forall₂.nil]⟩
    · refine ⟨[pre], by simp, ?_⟩
      rw [mergeAux, if_neg (bufferOf_ne_empty pre hp)]
      exact List.Forall₂.cons (BlockOut.shortRun pre hp hpre) List.Forall₂.nil
  | note :: rest', pre, hpre => by
    by_cases hlt : note.length < minLen
    · have hpre' : ∀ n ∈ pre ++ [note], n.length < minLen := by
        intro n hn
        rcases List.mem_append.1 hn with h | h
        · exact hpre n h
        · simp at h
          subst h
          exact hlt
      obtain ⟨blocks, hjoin, hf⟩ := mergeAux_blocks minLen rest' (pre ++ [note]) hpre'
      refine ⟨blocks, by simpa using hjoin, ?_⟩
      rw [mergeAux, if_pos hlt, ← bufferOf_append_single]
      exact hf
    · by_cases hp : pre = []
      · subst hp
        obtain ⟨blocks, hjoin, hf⟩ := mergeAux_blocks minLen rest' [] (by simp)
        refine ⟨[note] :: blocks, by simpa using hjoin, ?_⟩
        have heval : mergeAux minLen (bufferOf []) (note :: rest') =
            note :: mergeAux minLen "" rest' := by
          rw [mergeAux, if_neg hlt]
          simp [bufferOf]
        rw [heval]
        exact List.Forall₂.cons (BlockOut.long note (Nat.le_of_not_lt hlt))
          (by simpa [bufferOf] using hf)
      · obtain ⟨blocks, hjoin, hf⟩ := mergeAux_blocks minLen rest' [] (by simp)
        refine ⟨pre :: [note] :: blocks, by simp [hjoin], ?_⟩
        have heval : mergeAux minLen (bufferOf pre) (note :: rest') =
            pyStrip (bufferOf pre) :: note :: mergeAux minLen "" rest' := by
          rw [mergeAux, if_neg hlt, if_neg (bufferOf_ne_empty pre hp)]
        rw [heval]
        exact List.Forall₂.cons (BlockOut.shortRun pre hp hpre)
          (List.Forall₂.cons (BlockOut.long note (Nat.le_of_not_lt hlt))
            (by simpa [bufferOf] using hf))

theorem merge_blocks (minLen : Nat) (notes : List String) :
    ∃ blocks : List (List String),
      blocks.flatten = notes ∧
      List.Forall₂ (BlockOut minLen) blocks (mergeNotes minLen notes) := by
  simpa [mergeNotes, bufferOf] using mergeAux_blocks minLen notes [] (by simp)

theorem forall2_rel_of_mem_right {α β : Type} {R : α → β → Prop} :
    ∀ {l₁ : List α} {l₂ : List β}, List.Forall₂ R l₁ l₂ → ∀ b ∈ l₂, ∃ a ∈ l₁, R a b := by
  intro l₁ l₂ h
  induction h with
  | nil => intro b hb; cases hb
  | cons hr _ ih =>
    intro b hb
    rcases List.mem_cons.1 hb with rfl | hb
    · exact ⟨_, List.mem_cons_self _ _, hr⟩
    · obtain ⟨a, ha, har⟩ := ih b hb
      exact ⟨a, List.mem_cons_of_mem _ ha, har⟩

theorem forall2_rel_of_mem_left {α β : Type} {R : α → β → Prop} :
    ∀ {l₁ : List α} {l₂ : List β}, List.Forall₂ R l₁ l₂ → ∀ a ∈ l₁, ∃ b ∈ l₂, R a b := by
  intro l₁ l₂ h
  induction h with
  | nil => intro a ha; cases ha
  | cons hr _ ih =>
    intro a ha
    rcases List.mem_cons.1 ha with rfl | ha
    · exact ⟨_, List.mem_cons_self _ _, hr⟩
    · obtain ⟨b, hb, hbr⟩ := ih a ha
      exact ⟨b, List.mem_cons_of_mem _ hb, hbr⟩

theorem dropWhile_shape (a m b : List Char) (hm : m ≠ [])
    (hh : ∀ c, m.head? = some c → isWS c = false) :
    ∃ a', List.dropWhile isWS (a ++ m ++ b) = a' ++ m ++ b := by
  cases m with
  | nil => exact absurd rfl hm
  | cons c m' =>
    have hc : isWS c = false := hh c rfl
    rw [List.append_assoc, List.dropWhile_append]
    by_cases he : (List.dropWhile isWS a).isEmpty
    · rw [if_pos he]
      refine ⟨[], ?_⟩
      simp [List.dropWhile_cons, hc]
    · rw [if_neg he]
      exact ⟨List.dropWhile isWS a, by simp [List.append_assoc]⟩

theorem stripChars_infix (a m b : List Char)
    (hh : ∀ c, m.head? = some c → isWS c = false)
    (hl : ∀ c, m.getLast? = some c → isWS c = false) :
    m <:+: stripChars (a ++ m ++ b) := by
  by_cases hm : m = []
  · subst hm
    exact ⟨[], stripChars (a ++ [] ++ b), by simp⟩
  · obtain ⟨a', ha'⟩ := dropWhile_shape a m b hm hh
    have hmr : m.reverse ≠ [] := by simpa using hm
    have hh' : ∀ c, m.reverse.head? = some c → isWS c = false := by
      intro c hc
      rw [List.head?_reverse] at hc
      exact hl c hc
    obtain ⟨b', hb'⟩ := dropWhile_shape b.reverse m.reverse a'.reverse hmr hh'
    have hrev : (a' ++ m ++ b).reverse = b.reverse ++ m.reverse ++ a'.reverse := by
      simp [List.reverse_append, List.append_assoc]
    have hstr : stripChars (a ++ m ++ b) = a' ++ m ++ b'.reverse := by
      unfold stripChars
      rw [ha', hrev, hb']
      simp [List.reverse_append, List.append_assoc]
    rw [hstr]
    exact ⟨a', b'.reverse, rfl⟩

theorem length_dropWhile_le' (p : Char → Bool) (l : List Char) :
    (l.dropWhile p).length ≤ l.length :=
  (List.dropWhile_sublist p).length_le

theorem stripChars_eq_self_head (l : List Char) (h : stripChars l = l) :
    ∀ c, l.head? = some c → isWS c = false := by
  intro c hc
  cases l with
  | nil => cases hc
  | cons c' t =>
    have hcc : c' = c := by simpa using hc
    subst hcc
    cases hw : isWS c'
    · rfl
    · exfalso
      have h1 : (stripChars (c' :: t)).length ≤ (List.dropWhile isWS (c' :: t)).length := by
        simpa [stripChars] using
          length_dropWhile_le' isWS ((c' :: t).dropWhile isWS).reverse
      rw [List.dropWhile_cons_of_pos hw] at h1
      have h2 : (List.dropWhile isWS t).length ≤ t.length := length_dropWhile_le' isWS t
      have h3 : (stripChars (c' :: t)).length = (c' :: t).length := by rw [h]
      simp at h3
      omega

theorem stripChars_eq_self_getLast (l : List Char) (h : stripChars l = l) :
    ∀ c, l.getLast? = some c → isWS c = false := by
  intro c hc
  cases hw : isWS c
  · rfl
  · exfalso
    have h1 : (stripChars l).length = (List.dropWhile isWS (l.dropWhile isWS).reverse).length := by
      simp [stripChars]
    have h2 : (List.dropWhile isWS (l.dropWhile isWS).reverse).length ≤
        (l.dropWhile isWS).length := by
      simpa using length_dropWhile_le' isWS (l.dropWhile isWS).reverse
    have h3 : (l.dropWhile isWS).length ≤ l.length := length_dropWhile_le' isWS l
    have hlen : (stripChars l).length = l.length := by rw [h]
    have hu : l.dropWhile isWS = l :=
      (List.dropWhile_sublist isWS).eq_of_length (by omega)
    have h4 : List.dropWhile isWS l.reverse = l.reverse := by
      apply (List.dropWhile_sublist isWS).eq_of_length
      rw [hu] at h1
      simpa using (by omega : (List.dropWhile isWS l.reverse).length = l.length)
    cases hrv : l.reverse with
    | nil =>
      rw [hrv] at h4
      have hnil : l = [] := by simpa using congrArg List.reverse hrv
      subst hnil
      cases hc
    | cons c' t =>
      have hcc : c' = c := by
        have hh := List.head?_reverse l
        rw [hrv] at hh
        rw [hc] at hh
        simpa using hh
      subst hcc
      rw [hrv, List.dropWhile_cons_of_pos hw] at h4
      have h5 : (List.dropWhile isWS t).length ≤ t.length := length_dropWhile_le' isWS t
      have h6 := congrArg List.length h4
      simp at h6
      omega

theorem foldl_buffer_data (run : List String) (b : String) :
    (run.foldl (fun b n => b ++ " " ++ n) b).data
      = b.data ++ (run.map (fun n => ' ' :: n.data)).flatten := by
  induction run generalizing b with
  | nil => simp
  | cons x xs ih =>
    have hsp : (" " : String).data = [' '] := rfl
    simp only [List.foldl_cons, List.map_cons, List.flatten_cons]
    rw [ih]
    simp [String.data_append, hsp, List.append_assoc]

theorem bufferOf_data (run : List String) :
    (bufferOf run).data = (run.map (fun n => ' ' :: n.data)).flatten := by
  simpa [bufferOf] using foldl_buffer_data run ""

/-! ### Claims C1 - C3: the merge step -/

/-- C1 (counterexample): on the spec's worked example with minimum length 40,
the merge step does NOT produce the single combined note
`["short a sufficiently long note text exceeding forty characters"]` that the
claim states: the buffered short fragment is flushed as its own element before
the long note, not concatenated into it. -/
theorem merge_example_counterexample :
    mergeNotes min_note_len ["short", c1Long]
      ≠ ["short a sufficiently long note text exceeding forty characters"] := by
  decide

/-- C1 (amended): on the spec's worked example the merge step produces the
two-note list `["short", c1Long]`: the short fragment is flushed as its own
combined note immediately before the long note. -/
theorem merge_example_amended :
    mergeNotes min_note_len ["short", c1Long] = ["short", c1Long] := by
  decide

/-- C2 (counterexample): it is not the case that every output note either has
length at least 40 or is the final flushed buffer note of the admission: on
`["x", c1Long, "y"]` the first output is the 1-character flush `"x"`, which is
neither 40 characters long nor the admission's final (last) flushed note. -/
theorem merge_min_len_counterexample :
    ¬ (∀ s ∈ mergeNotes min_note_len ["x", c1Long, "y"],
        min_note_len ≤ s.length ∨
        s = (mergeNotes min_note_len ["x", c1Long, "y"]).getLast?.getD "") := by
  decide

/-- C2 (amended): every string in the merge step's output either has length at
least the minimum threshold 40, or is a flushed buffer note: the strip of the
space-joined buffer of a non-empty run of consecutive input notes (an infix of
the note list) each shorter than 40, flushed mid-admission when a long note
follows or at the end of the admission; no short fragment is silently
dropped. -/
theorem merge_short_output_flushed (notes : List String) :
    ∀ s ∈ mergeNotes min_note_len notes,
      min_note_len ≤ s.length ∨
      ∃ run, run ≠ [] ∧ run <:+: notes ∧ (∀ n ∈ run, n.length < min_note_len) ∧
        s = pyStrip (bufferOf run) := by
  obtain ⟨blocks, hjoin, hf⟩ := merge_blocks min_note_len notes
  intro s hs
  obtain ⟨b, hb, hrel⟩ := forall2_rel_of_mem_right hf s hs
  cases hrel
  case long h => exact Or.inl h
  case shortRun hne hshort =>
    refine Or.inr ⟨b, hne, ?_, hshort, rfl⟩
    rw [← hjoin]
    exact List.infix_of_mem_flatten hb

theorem merge_flushed_witness :
    ("x" ∈ mergeNotes min_note_len ["x", c1Long, "y"]) ∧
    (min_note_len ≤ "x".length ∨
      ∃ run, run ≠ [] ∧ run <:+: ["x", c1Long, "y"] ∧
        (∀ n ∈ run, n.length < min_note_len) ∧ "x" = pyStrip (bufferOf run)) :=
  ⟨by decide, merge_short_output_flushed ["x", c1Long, "y"] "x" (by decide)⟩

/-- C3: for every admission note list whose notes are clean (fixed points of
`strip`, as `clean_text` guarantees), the merge step partitions the input into
consecutive blocks, in order: each output note is either a long input note
kept verbatim or the flush of a non-empty run of consecutive short notes
(`blocks.flatten = notes` with `Forall₂` pairing the i-th block with the i-th
output, so chronological order is preserved, no fragment is dropped, and a
trailing run of short fragments becomes the admission's last combined note);
moreover every input note's text occurs, in order, inside the concatenation of
the output notes. -/
theorem merge_order_and_containment (notes : List String)
    (hclean : ∀ n ∈ notes, pyStrip n = n) :
    ∃ blocks : List (List String),
      blocks.flatten = notes ∧
      List.Forall₂ (BlockOut min_note_len) blocks (mergeNotes min_note_len notes) ∧
      ∀ n ∈ notes, n.data <:+: concatTexts (mergeNotes min_note_len notes) := by
  obtain ⟨blocks, hjoin, hf⟩ := merge_blocks min_note_len notes
  refine ⟨blocks, hjoin, hf, ?_⟩
  intro n hn
  have hstrip : stripChars n.data = n.data := congrArg String.data (hclean n hn)
  have hn' : n ∈ blocks.flatten := by rw [hjoin]; exact hn
  obtain ⟨b, hb, hnb⟩ := List.mem_flatten.1 hn'
  obtain ⟨s, hs, hrel⟩ := forall2_rel_of_mem_left hf b hb
  have hns : n.data <:+: s.data := by
    cases hrel
    case long hlong =>
      have heq : n = s := by simpa using hnb
      rw [heq]
    case shortRun hne hshort =>
      obtain ⟨l₁, l₂, hsplit⟩ := List.append_of_mem hnb
      have hsdata : (pyStrip (bufferOf b)).data = stripChars ((bufferOf b).data) := rfl
      rw [hsdata, bufferOf_data, hsplit]
      have heq : ((l₁ ++ n :: l₂).map (fun m => ' ' :: m.data)).flatten
          = ((l₁.map (fun m => ' ' :: m.data)).flatten ++ [' ']) ++ n.data
            ++ (l₂.map (fun m => ' ' :: m.data)).flatten := by
        simp [List.map_append, List.flatten_append, List.append_assoc]
      rw [heq]
      exact stripChars_infix _ _ _
        (stripChars_eq_self_head n.data hstrip)
        (stripChars_eq_self_getLast n.data hstrip)
  have hsc : s.data <:+: concatTexts (mergeNotes min_note_len notes) :=
    List.infix_of_mem_flatten (List.mem_map_of_mem String.data hs)
  exact hns.trans hsc

theorem merge_order_witness :
    (∀ n ∈ ["hi", c1Long], pyStrip n = n) ∧
    (∃ blocks : List (List String),
      blocks.flatten = ["hi", c1Long] ∧
      List.Forall₂ (BlockOut min_note_len) blocks (mergeNotes min_note_len ["hi", c1Long]) ∧
      ∀ n ∈ ["hi", c1Long], n.data <:+: concatTexts (mergeNotes min_note_len ["hi", c1Long])) :=
  ⟨by decide, merge_order_and_containment ["hi", c1Long] (by decide)⟩

/-! ### Claim C7: chronological order within an admission -/

theorem tsLeB_total (x y : Option Nat) : tsLeB x y = true ∨ tsLeB y x = true := by
  cases x <;> cases y <;> simp [tsLeB] <;> omega

theorem tsLeB_trans (x y z : Option Nat) (h1 : tsLeB x y = true) (h2 : tsLeB y z = true) :
    tsLeB x z = true := by
  cases x <;> cases y <;> cases z <;> simp [tsLeB] at * <;> omega

theorem rowLeB_total (a b : NoteRow) : rowLeB a b = true ∨ rowLeB b a = true := by
  simp only [rowLeB, Bool.or_eq_true, Bool.and_eq_true, decide_eq_true_eq]
  rcases Nat.lt_trichotomy a.subject_id b.subject_id with h | h | h
  · exact Or.inl (Or.inl h)
  · rcases Nat.lt_trichotomy a.hadm_id b.hadm_id with h' | h' | h'
    · exact Or.inl (Or.inr ⟨h, Or.inl h'⟩)
    · rcases tsLeB_total a.charttime b.charttime with ht | ht
      · exact Or.inl (Or.inr ⟨h, Or.inr ⟨h', ht⟩⟩)
      · exact Or.inr (Or.inr ⟨h.symm, Or.inr ⟨h'.symm, ht⟩⟩)
    · exact Or.inr (Or.inr ⟨h.symm, Or.inl h'⟩)
  · exact Or.inr (Or.inl h)

theorem rowLeB_trans (a b c : NoteRow) (h1 : rowLeB a b = true) (h2 : rowLeB b c = true) :
    rowLeB a c = true := by
  simp only [rowLeB, Bool.or_eq_true, Bool.and_eq_true, decide_eq_true_eq] at *
  rcases h1 with h1 | ⟨he1, h1⟩
  · rcases h2 with h2 | ⟨he2, h2⟩
    · exact Or.inl (by omega)
    · exact Or.inl (by omega)
  · rcases h2 with h2 | ⟨he2, h2⟩
    · exact Or.inl (by omega)
    · refine Or.inr ⟨by omega, ?_⟩
      rcases h1 with h1 | ⟨hh1, h1⟩
      · rcases h2 with h2 | ⟨hh2, h2⟩
        · exact Or.inl (by omega)
        · exact Or.inl (by omega)
      · rcases h2 with h2 | ⟨hh2, h2⟩
        · exact Or.inl (by omega)
        · exact Or.inr ⟨by omega, tsLeB_trans _ _ _ h1 h2⟩

/-- C7: for every note table in which all rows of admission `h` of subject `s`
carry a valid (parseable) timestamp, the row list backing that admission's
note list — the sorted table filtered to that subject and admission, whose
TEXT column is `notesFor s h rows` — is ordered non-decreasingly by
timestamp. -/
theorem admission_rows_chronological (rows : List NoteRow) (s h : Nat)
    (hvalid : ∀ r ∈ rows, r.subject_id = s → r.hadm_id = h → r.charttime.isSome) :
    (admissionRows s h rows).Pairwise
      (fun a b => tsLeB a.charttime b.charttime = true) := by
  haveI : IsTotal NoteRow (fun a b => rowLeB a b = true) := ⟨rowLeB_total⟩
  haveI : IsTrans NoteRow (fun a b => rowLeB a b = true) := ⟨rowLeB_trans⟩
  have hsorted : (sortRows rows).Pairwise (fun a b => rowLeB a b = true) :=
    List.sorted_insertionSort _ rows
  have hfil : (admissionRows s h rows).Pairwise (fun a b => rowLeB a b = true) :=
    hsorted.filter _
  refine List.Pairwise.imp_of_mem ?_ hfil
  intro a b ha hb hr
  have hpa := (List.mem_filter.1 ha).2
  have hpb := (List.mem_filter.1 hb).2
  simp only [Bool.and_eq_true, decide_eq_true_eq] at hpa hpb
  simp only [rowLeB, Bool.or_eq_true, Bool.and_eq_true, decide_eq_true_eq] at hr
  rcases hr with hr | ⟨he, hr⟩
  · omega
  · rcases hr with hr | ⟨hh, hr⟩
    · omega
    · exact hr

theorem admission_rows_witness :
    (∀ r ∈ [NoteRow.mk 1 1 (some 5) "b", NoteRow.mk 1 1 (some 3) "a"],
        r.subject_id = 1 → r.hadm_id = 1 → r.charttime.isSome) ∧
    (admissionRows 1 1 [NoteRow.mk 1 1 (some 5) "b", NoteRow.mk 1 1 (some 3) "a"]).Pairwise
      (fun a b => tsLeB a.charttime b.charttime = true) :=
  ⟨by decide, admission_rows_chronological
    [NoteRow.mk 1 1 (some 5) "b", NoteRow.mk 1 1 (some 3) "a"] 1 1 (by decide)⟩

/-! ### Claim C8: resource-log structure -/

theorem logAll_some (entries : List (String × List String)) :
    ∀ rows, logAll (some rows) entries =
      some (rows ++ entries.map (fun e => mkRow e.1 e.2)) := by
  induction entries with
  | nil => intro rows; simp [logAll]
  | cons e rest ih =>
    intro rows
    have h1 : logAll (some rows) (e :: rest) =
        logAll (some (rows ++ [mkRow e.1 e.2])) rest := by
      simp [logAll, logOnce]
    rw [h1, ih]
    simp

/-- C8: starting from no existing log file, N sequential `ResourceLogger`
invocations with distinct tags leave the CSV equal to exactly one header row
followed by the N data rows in invocation order; the i-th data row starts with
the i-th tag; and an invocation against an existing file only appends its data
row (no second header is ever written). -/
theorem resource_log_structure (entries : List (String × List String))
    (hne : entries ≠ []) (hdup : (entries.map Prod.fst).Nodup) :
    logAll none entries = some (header :: entries.map (fun e => mkRow e.1 e.2))
    ∧ (∀ i : Nat, ((entries.map (fun e => mkRow e.1 e.2))[i]?).bind List.head? =
        (entries[i]?).map Prod.fst)
    ∧ (∀ rows tag telemetry, logOnce (some rows) tag telemetry =
        rows ++ [mkRow tag telemetry]) := by
  refine ⟨?_, ?_, fun _ _ _ => rfl⟩
  · cases entries with
    | nil => exact absurd rfl hne
    | cons e rest =>
      have h1 : logAll none (e :: rest) = logAll (some [header, mkRow e.1 e.2]) rest := by
        simp [logAll, logOnce]
      rw [h1, logAll_some]
      simp
  · intro i
    rw [List.getElem?_map]
    cases entries[i]? with
    | none => rfl
    | some e => rfl

theorem resource_log_witness :
    ([("a", ["1", "2", "3", "4"]), ("b", ["5", "6", "7", "8"])] ≠
      ([] : List (String × List String))) ∧
    (([("a", ["1", "2", "3", "4"]), ("b", ["5", "6", "7", "8"])].map Prod.fst).Nodup) ∧
    (logAll none [("a", ["1", "2", "3", "4"]), ("b", ["5", "6", "7", "8"])] =
      some (header :: [("a", ["1", "2", "3", "4"]), ("b", ["5", "6", "7", "8"])].map
        (fun e => mkRow e.1 e.2))) :=
  ⟨by decide, by decide,
    (resource_log_structure [("a", ["1", "2", "3", "4"]), ("b", ["5", "6", "7", "8"])]
      (by decide) (by decide)).1⟩

/-! ### Claims C4, C5, C6, C9, C10: the selector -/

theorem charListLe_total : ∀ a b : List Char, charListLe a b = true ∨ charListLe b a = true
  | [], _ => Or.inl rfl
  | _ :: _, [] => Or.inr rfl
  | c :: cs, d :: ds => by
    by_cases h1 : c.toNat < d.toNat
    · left
      rw [charListLe, if_pos h1]
    · by_cases h2 : d.toNat < c.toNat
      · right
        rw [charListLe, if_pos h2]
      · have := charListLe_total cs ds
        rw [charListLe, if_neg h1, if_neg h2, charListLe, if_neg h2, if_neg h1]
        exact this

theorem charListLe_trans : ∀ a b c : List Char,
    charListLe a b = true → charListLe b c = true → charListLe a c = true
  | [], _, _ => fun _ _ => rfl
  | x :: xs, [], _ => fun h _ => by cases h
  | x :: xs, y :: ys, [] => fun _ h => by cases h
  | x :: xs, y :: ys, z :: zs => by
    intro h1 h2
    rw [charListLe] at h1 h2 ⊢
    by_cases hxy : x.toNat < y.toNat
    · by_cases hyz : y.toNat < z.toNat
      · rw [if_pos (by omega : x.toNat < z.toNat)]
      · by_cases hzy : z.toNat < y.toNat
        · rw [if_neg hyz, if_pos hzy] at h2
          cases h2
        · rw [if_pos (by omega : x.toNat < z.toNat)]
    · by_cases hyx : y.toNat < x.toNat
      · rw [if_neg hxy, if_pos hyx] at h1
        cases h1
      · by_cases hyz : y.toNat < z.toNat
        · rw [if_pos (by omega : x.toNat < z.toNat)]
        · by_cases hzy : z.toNat < y.toNat
          · rw [if_neg hyz, if_pos hzy] at h2
            cases h2
          · rw [if_neg hxy, if_neg hyx] at h1
            rw [if_neg hyz, if_neg hzy] at h2
            rw [if_neg (by omega : ¬ x.toNat < z.toNat),
              if_neg (by omega : ¬ z.toNat < x.toNat)]
            exact charListLe_trans xs ys zs h1 h2

theorem strLeB_refl (s : String) : strLeB s s = true := by
  rcases charListLe_total s.data s.data with h | h
  · exact h
  · exact h

theorem idxmax_lt_length : ∀ (l : List ℚ), l ≠ [] → idxmax l < l.length
  | [], h => absurd rfl h
  | [x], _ => by simp [idxmax]
  | x :: y :: xs, _ => by
    rw [idxmax]
    by_cases hlt : x < maxVal (y :: xs)
    · rw [if_pos hlt]
      have := idxmax_lt_length (y :: xs) (by simp)
      simpa using this
    · rw [if_neg hlt]
      simp

theorem le_maxVal : ∀ (l : List ℚ) (x : ℚ), x ∈ l → x ≤ maxVal l
  | [], x, hx => absurd hx (List.not_mem_nil x)
  | [y], x, hx => by
    simp at hx
    subst hx
    simp [maxVal]
  | y :: z :: zs, x, hx => by
    rcases List.mem_cons.1 hx with rfl | hx
    · simp [maxVal]
    · have := le_maxVal (z :: zs) x hx
      rw [maxVal]
      exact le_trans this (le_max_right _ _)

theorem getElem_idxmax : ∀ (l : List ℚ), l ≠ [] → ∀ (h : idxmax l < l.length),
    l[idxmax l] = maxVal l
  | [], hne, _ => absurd rfl hne
  | [x], _, h => by simp [idxmax, maxVal]
  | x :: y :: xs, _, h => by
    by_cases hlt : x < maxVal (y :: xs)
    · have hi : idxmax (x :: y :: xs) = idxmax (y :: xs) + 1 := by rw [idxmax, if_pos hlt]
      have hlen : idxmax (y :: xs) < (y :: xs).length := idxmax_lt_length (y :: xs) (by simp)
      have := getElem_idxmax (y :: xs) (by simp) hlen
      simp only [hi, List.getElem_cons_succ]
      rw [this, maxVal]
      exact (max_eq_right (le_of_lt hlt)).symm
    · have hi : idxmax (x :: y :: xs) = 0 := by rw [idxmax, if_neg hlt]
      simp only [hi, List.getElem_cons_zero]
      rw [maxVal]
      exact (max_eq_left (le_of_not_lt hlt)).symm

theorem getElem_lt_maxVal_of_lt_idxmax : ∀ (l : List ℚ) (j : Nat), j < idxmax l →
    ∀ (hj : j < l.length), l[j] < maxVal l
  | [], j, hlt, _ => by simp [idxmax] at hlt
  | [x], j, hlt, _ => by simp [idxmax] at hlt
  | x :: y :: xs, j, hlt, hj => by
    by_cases hx : x < maxVal (y :: xs)
    · have hi : idxmax (x :: y :: xs) = idxmax (y :: xs) + 1 := by rw [idxmax, if_pos hx]
      rw [hi] at hlt
      cases j with
      | zero =>
        simp only [List.getElem_cons_zero]
        rw [maxVal]
        exact lt_of_lt_of_le hx (le_max_right _ _)
      | succ j' =>
        have hj' : j' < (y :: xs).length := by simpa using hj
        have := getElem_lt_maxVal_of_lt_idxmax (y :: xs) j' (by omega) hj'
        simp only [List.getElem_cons_succ]
        rw [maxVal]
        exact lt_of_lt_of_le this (le_max_right _ _)
    · have hi : idxmax (x :: y :: xs) = 0 := by rw [idxmax, if_neg hx]
      rw [hi] at hlt
      omega

theorem sortByName_perm (files : List ScoreFile) : (sortByName files).Perm files :=
  List.perm_insertionSort _ files

theorem sortByName_ne_nil (files : List ScoreFile) (h : files ≠ []) : sortByName files ≠ [] := by
  intro hcon
  apply h
  have := sortByName_perm files
  rw [hcon] at this
  exact this.symm.eq_nil

/-- C4: for every non-empty set of fold-score files, the selector's choice —
the file at `idxmax` of the per-file mean Macro-F1 over the sorted glob — is
one of the input files, and its mean is greater than or equal to the mean of
every file in the set (the global maximum). -/
theorem selector_max_mean (files : List ScoreFile) (hne : files ≠ []) :
    bestFile (sortByName files) ∈ files ∧
    ∀ f ∈ files, avg_macro_f1 f ≤ avg_macro_f1 (bestFile (sortByName files)) := by
  have hperm := sortByName_perm files
  have hsne : sortByName files ≠ [] := sortByName_ne_nil files hne
  have hmne : (sortByName files).map avg_macro_f1 ≠ [] := by
    simpa using hsne
  have hidx : idxmax ((sortByName files).map avg_macro_f1) <
      ((sortByName files).map avg_macro_f1).length :=
    idxmax_lt_length _ hmne
  have hidx' : bestIndex (sortByName files) < (sortByName files).length := by
    simpa [bestIndex] using hidx
  have hbest : bestFile (sortByName files) = (sortByName files)[bestIndex (sortByName files)] := by
    rw [bestFile, List.getD_eq_getElem?_getD, List.getElem?_eq_getElem hidx']
    rfl
  have hbv : avg_macro_f1 (bestFile (sortByName files)) =
      maxVal ((sortByName files).map avg_macro_f1) := by
    rw [hbest, ← List.getElem_map avg_macro_f1]
    · exact getElem_idxmax _ hmne (by simpa [bestIndex] using hidx)
  constructor
  · rw [hbest]
    exact hperm.mem_iff.1 (List.getElem_mem hidx')
  · intro f hf
    have hf' : f ∈ sortByName files := hperm.mem_iff.2 hf
    have hmem : avg_macro_f1 f ∈ (sortByName files).map avg_macro_f1 :=
      List.mem_map_of_mem avg_macro_f1 hf'
    rw [hbv]
    exact le_maxVal _ _ hmem

theorem selector_max_mean_witness :
    (([⟨"stacker_best_model_folds_iter1.csv", [1]⟩, ⟨"stacker_best_model_folds_iter2.csv", [0]⟩] :
        List ScoreFile) ≠ []) ∧
    (∀ f ∈ ([⟨"stacker_best_model_folds_iter1.csv", [1]⟩,
        ⟨"stacker_best_model_folds_iter2.csv", [0]⟩] : List ScoreFile),
      avg_macro_f1 f ≤ avg_macro_f1 (bestFile (sortByName
        [⟨"stacker_best_model_folds_iter1.csv", [1]⟩,
         ⟨"stacker_best_model_folds_iter2.csv", [0]⟩]))) :=
  ⟨by simp, (selector_max_mean _ (by simp)).2⟩

/-- C9: the tie-break is deterministic: since `idxmax` returns the first
occurrence of the maximum and the glob list is lexicographically sorted, the
chosen file's name is lexicographically less than or equal to the name of
every input file achieving the same (maximal) mean score. -/
theorem selector_tie_lex (files : List ScoreFile) (hne : files ≠ []) :
    ∀ f ∈ files, avg_macro_f1 f = avg_macro_f1 (bestFile (sortByName files)) →
      strLeB (bestFile (sortByName files)).name f.name = true := by
  intro f hf heq
  haveI : IsTotal ScoreFile (fun a b => strLeB a.name b.name = true) :=
    ⟨fun a b => charListLe_total a.name.data b.name.data⟩
  haveI : IsTrans ScoreFile (fun a b => strLeB a.name b.name = true) :=
    ⟨fun _ _ _ h1 h2 => charListLe_trans _ _ _ h1 h2⟩
  have hperm := sortByName_perm files
  have hsne : sortByName files ≠ [] := sortByName_ne_nil files hne
  have hmne : (sortByName files).map avg_macro_f1 ≠ [] := by simpa using hsne
  have hidx : idxmax ((sortByName files).map avg_macro_f1) <
      ((sortByName files).map avg_macro_f1).length := idxmax_lt_length _ hmne
  have hidx' : bestIndex (sortByName files) < (sortByName files).length := by
    simpa [bestIndex] using hidx
  have hbest : bestFile (sortByName files) = (sortByName files)[bestIndex (sortByName files)] := by
    rw [bestFile, List.getD_eq_getElem?_getD, List.getElem?_eq_getElem hidx']
    rfl
  have hbv : avg_macro_f1 (bestFile (sortByName files)) =
      maxVal ((sortByName files).map avg_macro_f1) := by
    rw [hbest, ← List.getElem_map avg_macro_f1]
    exact getElem_idxmax _ hmne (by simpa [bestIndex] using hidx)
  have hf' : f ∈ sortByName files := hperm.mem_iff.2 hf
  obtain ⟨j, hj, hfj⟩ := List.mem_iff_getElem.1 hf'
  have hnotlt : ¬ j < bestIndex (sortByName files) := by
    intro hlt
    have hjm : j < ((sortByName files).map avg_macro_f1).length := by simpa using hj
    have hstrict := getElem_lt_maxVal_of_lt_idxmax ((sortByName files).map avg_macro_f1) j
      (by simpa [bestIndex] using hlt) hjm
    rw [List.getElem_map, hfj, heq, hbv] at hstrict
    exact lt_irrefl _ hstrict
  have hsorted : (sortByName files).Sorted (fun a b : ScoreFile => strLeB a.name b.name = true) :=
    List.sorted_insertionSort _ files
  rcases Nat.lt_or_ge (bestIndex (sortByName files)) j with hlt | hge
  · have hrel := hsorted.rel_get_of_lt
      (a := ⟨bestIndex (sortByName files), hidx'⟩) (b := ⟨j, hj⟩) (by simpa using hlt)
    rw [hbest]
    simpa [List.get_eq_getElem, hfj] using hrel
  · have hjeq : j = bestIndex (sortByName files) := by omega
    subst hjeq
    rw [hbest, ← hfj]
    exact strLeB_refl _

theorem selector_tie_lex_witness :
    (([⟨"stacker_best_model_folds_iter2.csv", [1]⟩, ⟨"stacker_best_model_folds_iter1.csv", [1]⟩] :
        List ScoreFile) ≠ []) ∧
    ((⟨"stacker_best_model_folds_iter2.csv", [1]⟩ : ScoreFile) ∈
      ([⟨"stacker_best_model_folds_iter2.csv", [1]⟩, ⟨"stacker_best_model_folds_iter1.csv", [1]⟩] :
        List ScoreFile)) ∧
    strLeB (bestFile (sortByName [⟨"stacker_best_model_folds_iter2.csv", [1]⟩,
        ⟨"stacker_best_model_folds_iter1.csv", [1]⟩])).name
      "stacker_best_model_folds_iter2.csv" = true :=
  ⟨by simp, by simp,
    selector_tie_lex
      [⟨"stacker_best_model_folds_iter2.csv", [1]⟩, ⟨"stacker_best_model_folds_iter1.csv", [1]⟩]
      (by simp)
      ⟨"stacker_best_model_folds_iter2.csv", [1]⟩
      (by simp)
      (by
        have h1 : sortByName [⟨"stacker_best_model_folds_iter2.csv", [1]⟩,
            ⟨"stacker_best_model_folds_iter1.csv", [1]⟩] =
            [⟨"stacker_best_model_folds_iter1.csv", [1]⟩,
             ⟨"stacker_best_model_folds_iter2.csv", [1]⟩] := by decide
        rw [h1]
        simp [bestFile, bestIndex, idxmax, maxVal, avg_macro_f1])⟩

theorem sortByName_isEmpty_iff (files : List ScoreFile) :
    (sortByName files).isEmpty = true ↔ files = [] := by
  rw [List.isEmpty_iff]
  constructor
  · intro h
    have := sortByName_perm files
    rw [h] at this
    exact this.symm.eq_nil
  · intro h
    subst h
    rfl

/-- C5: the selector raises exactly when (a) the set of fold-score files is
empty (message "No fold-score CSV files found!") or (b) the winning file's
name carries no `iter<N>` tag (message "Cannot extract iteration from ...");
both are fatal, and on an error no copy is performed and no report line is
written. -/
theorem selector_error_iff (files : List ScoreFile) (fs : List String) :
    ((∃ msg, runPipeline files fs = Except.error msg) ↔
      files = [] ∨ findIterTag (bestFile (sortByName files)).name = none)
    ∧ (files = [] → runPipeline files fs = Except.error "No fold-score CSV files found!")
    ∧ (files ≠ [] → findIterTag (bestFile (sortByName files)).name = none →
        runPipeline files fs =
          Except.error ("Cannot extract iteration from " ++ (bestFile (sortByName files)).name))
    ∧ (∀ msg, runPipeline files fs = Except.error msg →
        copiesOf (runPipeline files fs) = [] ∧ reportOf (runPipeline files fs) = []) := by
  by_cases hf : files = []
  · subst hf
    have hemp : (sortByName ([] : List ScoreFile)).isEmpty = true :=
      (sortByName_isEmpty_iff []).2 rfl
    have hrun : runPipeline [] fs = Except.error "No fold-score CSV files found!" := by
      rw [runPipeline, if_pos hemp]
    refine ⟨?_, fun _ => hrun, fun h _ => absurd rfl h, ?_⟩
    · constructor
      · intro _
        exact Or.inl rfl
      · intro _
        exact ⟨_, hrun⟩
    · intro msg _
      rw [hrun]
      exact ⟨rfl, rfl⟩
  · have hemp : ¬ (sortByName files).isEmpty = true := by
      intro h
      exact hf ((sortByName_isEmpty_iff files).1 h)
    cases hft : findIterTag (bestFile (sortByName files)).name with
    | none =>
      have hrun : runPipeline files fs =
          Except.error ("Cannot extract iteration from " ++ (bestFile (sortByName files)).name) := by
        rw [runPipeline, if_neg hemp, hft]
      refine ⟨?_, fun h => absurd h hf, fun _ _ => hrun, ?_⟩
      · constructor
        · intro _
          exact Or.inr rfl
        · intro _
          exact ⟨_, hrun⟩
      · intro msg _
        rw [hrun]
        exact ⟨rfl, rfl⟩
    | some tag =>
      have hrun : ∃ out, runPipeline files fs = Except.ok out := by
        rw [runPipeline, if_neg hemp, hft]
        exact ⟨_, rfl⟩
      obtain ⟨out, hout⟩ := hrun
      refine ⟨?_, fun h => absurd h hf, fun _ h => by simp at h, ?_⟩
      · constructor
        · intro hex
          obtain ⟨msg, hmsg⟩ := hex
          rw [hout] at hmsg
          cases hmsg
        · intro h
          rcases h with h | h
          · exact absurd h hf
          · cases h
      · intro msg hmsg
        rw [hout] at hmsg
        cases hmsg

theorem selector_error_iff_witness :
    (([⟨"stacker_best_model_folds_final.csv", [1]⟩] : List ScoreFile) ≠ []) ∧
    (findIterTag (bestFile (sortByName [⟨"stacker_best_model_folds_final.csv", [1]⟩])).name =
      none) ∧
    (runPipeline [⟨"stacker_best_model_folds_final.csv", [1]⟩] [] =
      Except.error ("Cannot extract iteration from " ++
        (bestFile (sortByName [⟨"stacker_best_model_folds_final.csv", [1]⟩])).name)) :=
  ⟨by simp, by decide,
    (selector_error_iff [⟨"stacker_best_model_folds_final.csv", [1]⟩] []).2.2.1
      (by simp) (by decide)⟩

theorem runPipeline_ok (files : List ScoreFile) (fs : List String) (tag : String)
    (hne : files ≠ [])
    (hft : findIterTag (bestFile (sortByName files)).name = some tag) :
    runPipeline files fs = Except.ok
      ⟨(if "stacker_best_model_" ++ tag ++ ".txt" ∈ fs then
          [("stacker_best_model_" ++ tag ++ ".txt",
            "stacker_best_model_across_iterations.txt")] else []) ++
        (if "stacker_best_model_" ++ tag ++ ".pkl" ∈ fs then
          [("stacker_best_model_" ++ tag ++ ".pkl",
            "stacker_best_model_across_iterations.pkl")] else []) ++
        copyActions tag fs,
        modelCard tag (avg_macro_f1 (bestFile (sortByName files)))
          (fs.filter (fun n => matchesMetrics tag n))⟩ := by
  have hemp : ¬ (sortByName files).isEmpty = true := fun h =>
    hne ((sortByName_isEmpty_iff files).1 h)
  rw [runPipeline, if_neg hemp, hft]

/-- C10: when the selector succeeds, the winning iteration's `.txt` / `.pkl`
artifacts are copied only if present — an absent artifact is skipped silently
(every copy's source is an existing file, and the run still succeeds for any
file-system contents) — yet the written report always lists both
`stacker_best_model_across_iterations.txt` and
`stacker_best_model_across_iterations.pkl` as saved artifacts, whether or not
either copy happened. -/
theorem artifact_copy_silent (files : List ScoreFile) (fs : List String) (tag : String)
    (hne : files ≠ [])
    (hft : findIterTag (bestFile (sortByName files)).name = some tag) :
    pipelineOk (runPipeline files fs) = true
    ∧ (∀ p ∈ copiesOf (runPipeline files fs), p.1 ∈ fs)
    ∧ "- `stacker_best_model_across_iterations.txt`\n" ∈ reportOf (runPipeline files fs)
    ∧ "- `stacker_best_model_across_iterations.pkl`\n" ∈ reportOf (runPipeline files fs) := by
  rw [runPipeline_ok files fs tag hne hft]
  refine ⟨rfl, ?_, ?_, ?_⟩
  · intro p hp
    simp only [copiesOf] at hp
    rcases List.mem_append.1 hp with hp | hp
    · rcases List.mem_append.1 hp with hp | hp
      · by_cases htxt : "stacker_best_model_" ++ tag ++ ".txt" ∈ fs
        · rw [if_pos htxt] at hp
          simp at hp
          subst hp
          exact htxt
        · rw [if_neg htxt] at hp
          cases hp
      · by_cases hpkl : "stacker_best_model_" ++ tag ++ ".pkl" ∈ fs
        · rw [if_pos hpkl] at hp
          simp at hp
          subst hp
          exact hpkl
        · rw [if_neg hpkl] at hp
          cases hp
    · obtain ⟨n, hn, hpn⟩ := List.mem_map.1 hp
      have hnf := (List.mem_filter.1 hn).1
      rw [← hpn]
      exact hnf
  · simp [reportOf, modelCard]
  · simp [reportOf, modelCard]

theorem artifact_copy_silent_witness :
    (([⟨"stacker_best_model_folds_iter1.csv", [1]⟩] : List ScoreFile) ≠ []) ∧
    (findIterTag (bestFile (sortByName [⟨"stacker_best_model_folds_iter1.csv", [1]⟩])).name =
      some "iter1") ∧
    (pipelineOk (runPipeline [⟨"stacker_best_model_folds_iter1.csv", [1]⟩] []) = true) ∧
    ("- `stacker_best_model_across_iterations.txt`\n" ∈
      reportOf (runPipeline [⟨"stacker_best_model_folds_iter1.csv", [1]⟩] [])) :=
  ⟨by simp, by decide,
    (artifact_copy_silent [⟨"stacker_best_model_folds_iter1.csv", [1]⟩] [] "iter1"
      (by simp) (by decide)).1,
    (artifact_copy_silent [⟨"stacker_best_model_folds_iter1.csv", [1]⟩] [] "iter1"
      (by simp) (by decide)).2.2.1⟩

theorem isIterTagB_decomp (tag : String) (ht : isIterTagB tag = true) :
    ∃ ds : List Char, ds ≠ [] ∧ (∀ c ∈ ds, c.isDigit = true) ∧
      tag.data = "iter".data ++ ds := by
  simp only [isIterTagB, Bool.and_eq_true] at ht
  obtain ⟨⟨hpre, hne⟩, hall⟩ := ht
  refine ⟨tag.data.drop 4, ?_, ?_, ?_⟩
  · simpa using hne
  · intro c hc
    exact List.all_eq_true.1 hall c hc
  · have hp : "iter".data <+: tag.data := List.isPrefixOf_iff_prefix.1 hpre
    obtain ⟨rest, hrest⟩ := hp
    have hdrop : tag.data.drop 4 = rest := by
      rw [← hrest]
      simp
    rw [hdrop, ← hrest]

theorem digits_underscore_eq : ∀ (ds ds' : List Char),
    (∀ c ∈ ds, c.isDigit = true) → (∀ c ∈ ds', c.isDigit = true) →
    (ds ++ ['_']) <+: (ds' ++ ['_']) → ds = ds'
  | [], [], _, _, _ => rfl
  | [], c' :: ds', _, h', hp => by
    have h1 : ('_' : Char) = c' := by simpa using hp
    have hc' := h' c' (List.mem_cons_self _ _)
    rw [← h1] at hc'
    exact absurd hc' (by decide)
  | c :: ds, [], h, _, hp => by
    simp at hp
  | c :: ds, c' :: ds', h, h', hp => by
    have h1 := List.cons_prefix_cons.1 (by simpa using hp)
    have hrec := digits_underscore_eq ds ds'
      (fun x hx => h x (List.mem_cons_of_mem _ hx))
      (fun x hx => h' x (List.mem_cons_of_mem _ hx))
      h1.2
    rw [h1.1, hrec]

theorem metricsPat_prefix_eq (t t' : String)
    (ht : isIterTagB t = true) (ht' : isIterTagB t' = true)
    (hp : metricsPat t <+: metricsPat t') : t = t' := by
  obtain ⟨ds, hdne, hdig, hdata⟩ := isIterTagB_decomp t ht
  obtain ⟨ds', hdne', hdig', hdata'⟩ := isIterTagB_decomp t' ht'
  have h1 : ("stacker_binary_metrics_".data ++ "iter".data) ++ (ds ++ ['_']) <+:
      ("stacker_binary_metrics_".data ++ "iter".data) ++ (ds' ++ ['_']) := by
    simpa [metricsPat, hdata, hdata', List.append_assoc] using hp
  have h2 := (List.prefix_append_right_inj _).1 h1
  have hds := digits_underscore_eq ds ds' hdig hdig' h2
  have hdd : t.data = t'.data := by rw [hdata, hdata', hds]
  exact congrArg String.mk hdd

theorem matchesMetrics_tag_inj (t t' : String)
    (ht : isIterTagB t = true) (ht' : isIterTagB t' = true) (n : String)
    (h : matchesMetrics t n = true) (h' : matchesMetrics t' n = true) : t = t' := by
  have hp : metricsPat t <+: n.data := by
    simp only [matchesMetrics, Bool.and_eq_true] at h
    exact List.isPrefixOf_iff_prefix.1 h.1.1
  have hp' : metricsPat t' <+: n.data := by
    simp only [matchesMetrics, Bool.and_eq_true] at h'
    exact List.isPrefixOf_iff_prefix.1 h'.1.1
  rcases List.prefix_or_prefix_of_prefix hp hp' with hor | hor
  · exact metricsPat_prefix_eq t t' ht ht' hor
  · exact (metricsPat_prefix_eq t' t ht' ht hor).symm

/-- C6: given the winning iteration tag, (i) every file matching
`stacker_binary_metrics_<tag>_*.csv` is copied to its name with the tag
replaced by the literal `across_iterations`; (ii) every copy the step performs
reads an existing file matching the winning tag's pattern and writes exactly
the replaced name; (iii) no file matching a different iteration's pattern is
ever a source of a copy (the two glob patterns cannot match the same name). -/
theorem metrics_copy_frame (tag : String) (fs : List String) (ht : isIterTagB tag = true) :
    (∀ n ∈ fs, matchesMetrics tag n = true →
      (n, n.replace tag "across_iterations") ∈ copyActions tag fs)
    ∧ (∀ p ∈ copyActions tag fs,
        p.1 ∈ fs ∧ matchesMetrics tag p.1 = true ∧ p.2 = p.1.replace tag "across_iterations")
    ∧ (∀ tag', isIterTagB tag' = true → tag' ≠ tag →
        ∀ n ∈ fs, matchesMetrics tag' n = true → ∀ d, (n, d) ∉ copyActions tag fs) := by
  refine ⟨?_, ?_, ?_⟩
  · intro n hn hm
    exact List.mem_map.2 ⟨n, List.mem_filter.2 ⟨hn, hm⟩, rfl⟩
  · intro p hp
    obtain ⟨n, hn, hpn⟩ := List.mem_map.1 hp
    have h1 := List.mem_filter.1 hn
    rw [← hpn]
    exact ⟨h1.1, h1.2, rfl⟩
  · intro tag' ht' hne n hn hm' d hmem
    obtain ⟨m, hmf, hmp⟩ := List.mem_map.1 hmem
    have hm2 : m = n := congrArg Prod.fst hmp
    have hm := (List.mem_filter.1 hmf).2
    rw [hm2] at hm
    exact hne (matchesMetrics_tag_inj tag' tag ht' ht n hm' hm)

theorem metrics_copy_frame_witness :
    (isIterTagB "iter1" = true) ∧
    (("stacker_binary_metrics_iter1_fold.csv" : String) ∈
      ["stacker_binary_metrics_iter1_fold.csv"]) ∧
    (matchesMetrics "iter1" "stacker_binary_metrics_iter1_fold.csv" = true) ∧
    (("stacker_binary_metrics_iter1_fold.csv",
        "stacker_binary_metrics_iter1_fold.csv".replace "iter1" "across_iterations") ∈
      copyActions "iter1" ["stacker_binary_metrics_iter1_fold.csv"]) :=
  ⟨by decide, by simp, by decide,
    (metrics_copy_frame "iter1" ["stacker_binary_metrics_iter1_fold.csv"] (by decide)).1
      "stacker_binary_metrics_iter1_fold.csv" (by simp) (by decide)⟩
